import Mathlib

/-!
Shallow embedding of the clockiPy report-generation core
(`clockipy/reports/report_generator.py`, `clockipy/reports/time_entry.py`,
`clockipy/utils/format_utils.py`).

Modelling conventions:
* Python `dict` / `defaultdict` accumulation is modelled by ordered
  association lists: an update keeps the key's position, a miss appends the
  key at the end (Python 3.7+ insertion order).
* Machine integers are `Nat` / `Int`; no overflow is possible in Python.
* Python floating-point `round(abs_diff * (d / D))` and `"%.0f"` formatting
  are modelled by exact integer round-half-even (`round` in Python is
  round-half-to-even, as is `"%.0f"`); the tiny binary-float error of the
  source is abstracted away.
* `start_date` (the `TimeEntry.start_date` property: the UTC date of the
  start timestamp, `None` when the timestamp is missing or unparseable) is
  abstracted to `Option Int` (an abstract day number).
* The regex `\{p(\d+):(\d{1,2})\}` of `parse_planned_from_name` is modelled
  by an explicit leftmost-match scanner over the character list; `\d` is
  modelled as an ASCII digit.
-/

namespace Clockipy

/-! ## Ordered association lists (Python dict accumulation) -/

/-- `d[k] += v` on a `defaultdict(int)`: update in place, or append `(k, v)`. -/
def addAssoc {κ : Type} [DecidableEq κ] : List (κ × Nat) → κ → Nat → List (κ × Nat)
  | [], k, v => [(k, v)]
  | (k', v') :: t, k, v =>
      if k' = k then (k', v' + v) :: t else (k', v') :: addAssoc t k v

/-- Sum of the values of an association list. -/
def sumVals {κ : Type} (l : List (κ × Nat)) : Nat :=
  (l.map Prod.snd).sum

/-- One `{"less_plan": _, "more_plan": _}` bucket of a plan-deviation dict. -/
structure Pools where
  less_plan : Int
  more_plan : Int
deriving DecidableEq

/-- `d[k]["more_plan"] += v` on a `defaultdict(lambda: {"less_plan": 0, "more_plan": 0})`. -/
def bumpMore {κ : Type} [DecidableEq κ] : List (κ × Pools) → κ → Int → List (κ × Pools)
  | [], k, v => [(k, { less_plan := 0, more_plan := v })]
  | (k', p) :: t, k, v =>
      if k' = k then (k', { p with more_plan := p.more_plan + v }) :: t
      else (k', p) :: bumpMore t k v

/-- `d[k]["less_plan"] += v`. -/
def bumpLess {κ : Type} [DecidableEq κ] : List (κ × Pools) → κ → Int → List (κ × Pools)
  | [], k, v => [(k, { less_plan := v, more_plan := 0 })]
  | (k', p) :: t, k, v =>
      if k' = k then (k', { p with less_plan := p.less_plan + v }) :: t
      else (k', p) :: bumpLess t k v

/-- Sum of the `more_plan` fields over all buckets of a dimension. -/
def sumMore {κ : Type} (l : List (κ × Pools)) : Int :=
  (l.map (fun kp => kp.2.more_plan)).sum

/-- Sum of the `less_plan` fields over all buckets of a dimension. -/
def sumLess {κ : Type} (l : List (κ × Pools)) : Int :=
  (l.map (fun kp => kp.2.less_plan)).sum

/-- The source's per-dimension allocation pattern
`if diff > 0: d[k]["more_plan"] += diff elif diff < 0: d[k]["less_plan"] += abs(diff)`. -/
def applyDiffPools {κ : Type} [DecidableEq κ] (diff : Int) (k : κ)
    (l : List (κ × Pools)) : List (κ × Pools) :=
  if 0 < diff then bumpMore l k diff
  else if diff < 0 then bumpLess l k (-diff)
  else l

/-! ## `format_utils.parse_planned_from_name`: the `\{p(\d+):(\d{1,2})\}` regex -/

/-- Numeric value of an ASCII digit character. -/
def digitVal (c : Char) : Nat := c.toNat - '0'.toNat

/-- `int` of a digit string (most significant digit first). -/
def natOfDigits (ds : List Char) : Nat :=
  ds.foldl (fun a c => a * 10 + digitVal c) 0

/-- Match `(\d{1,2})\}` (greedy with backtracking) at the head of the list,
returning the minutes value. -/
def matchMinutes : List Char → Option Nat
  | c1 :: c2 :: c3 :: _ =>
      if c1.isDigit then
        if c2.isDigit then
          if c3 = '}' then some (digitVal c1 * 10 + digitVal c2) else none
        else if c2 = '}' then some (digitVal c1) else none
      else none
  | [c1, c2] => if c1.isDigit ∧ c2 = '}' then some (digitVal c1) else none
  | _ => none

/-- Match the whole pattern `\{p(\d+):(\d{1,2})\}` at the head of the list.
`(\d+)` is greedy and must be followed by `:`, so it is exactly the maximal
digit run after `p`. -/
def matchPlannedAt (cs : List Char) : Option (Nat × Nat) :=
  match cs with
  | c1 :: c2 :: rest =>
      if c1 = '{' ∧ c2 = 'p' then
        let hds := rest.takeWhile Char.isDigit
        if hds = [] then none
        else
          match rest.dropWhile Char.isDigit with
          | c3 :: rest3 =>
              if c3 = ':' then (matchMinutes rest3).map (fun m => (natOfDigits hds, m))
              else none
          | [] => none
      else none
  | _ => none

/-- `re.search`: leftmost match of the planned-duration pattern. -/
def searchPlanned : List Char → Option (Nat × Nat)
  | [] => none
  | c :: cs =>
      match matchPlannedAt (c :: cs) with
      | some r => some r
      | none => searchPlanned cs

/-- `format_utils.parse_planned_from_name`: hours·3600 + minutes·60 from the
first `\{p(\d+):(\d{1,2})\}` match, 0 when there is none.  Total (the Python
`try` can never fire: the captured groups are digit strings), and a `Nat`
(the result of the source is a sum of products of non-negative ints). -/
def parse_planned_from_name (name : String) : Nat :=
  match searchPlanned name.data with
  | some (h, m) => h * 3600 + m * 60
  | none => 0

/-! ## `TimeEntry` -/

/-- Does the text start with the pattern? -/
def leadsWith : List Char → List Char → Bool
  | [], _ => true
  | _ :: _, [] => false
  | a :: as, b :: bs => a = b && leadsWith as bs

/-- Does the pattern occur contiguously anywhere in the text? -/
def containsChars (pat : List Char) : List Char → Bool
  | [] => pat.isEmpty
  | c :: rest => leadsWith pat (c :: rest) || containsChars pat rest

/-- Substring containment, Python's `glyph in description`. -/
def hasGlyph (glyph : String) (s : String) : Bool :=
  containsChars glyph.data s.data

/-- A time entry as consumed by the report core.  `duration_sec` stands for
the already-parsed interval duration (`parse_clockify_duration`, always a
non-negative integer, 0 when unparseable); `start_date` abstracts the
`start_date` property (see the file header). -/
structure TimeEntry where
  description : String
  project_name : String
  task_name : String
  tag_names : List String
  start_date : Option Int
  duration_sec : Nat
deriving DecidableEq

/-- `planned_sec = parse_planned_from_name(description)`. -/
def TimeEntry.planned_sec (e : TimeEntry) : Nat :=
  parse_planned_from_name e.description

/-- `"🎲" in self.description`. -/
def TimeEntry.is_spontaneous (e : TimeEntry) : Bool := hasGlyph "🎲" e.description

/-- `"🗓️" in self.description` (the glyph is two code points). -/
def TimeEntry.is_scheduled (e : TimeEntry) : Bool := hasGlyph "🗓️" e.description

/-- `"🔁" in self.description`. -/
def TimeEntry.is_recurring (e : TimeEntry) : Bool := hasGlyph "🔁" e.description

/-- Occurrence identity: `(entry.description, entry.project_name, entry.task_name)`. -/
def identityKey (e : TimeEntry) : String × String × String :=
  (e.description, e.project_name, e.task_name)

/-- Occurrence grouping key: identity plus
`entry.start_date if entry.is_recurring else None`. -/
def occKey (e : TimeEntry) : (String × String × String) × Option Int :=
  (identityKey e, if e.is_recurring then e.start_date else none)

/-! ## Phase 1 of `ReportGenerator.__init__`: the entry loop -/

/-- One `task_occurrences[occ_key]` value:
`{"planned": _, "measured": _, "entries": _}`. -/
structure OccData where
  planned : Nat
  measured : Nat
  entries : List TimeEntry
deriving DecidableEq

/-- Grouping key type: `((description, project, task_name), occurrence_date)`. -/
abbrev OccKey := (String × String × String) × Option Int

/-- Fold one entry into `task_occurrences` (defaultdict: create-at-end on miss,
then `+= planned`, `+= measured`, `entries.append`). -/
def occInsert : List (OccKey × OccData) → OccKey → TimeEntry → List (OccKey × OccData)
  | [], k, e => [(k, { planned := e.planned_sec, measured := e.duration_sec, entries := [e] })]
  | (k', d) :: t, k, e =>
      if k' = k then
        (k', { planned := d.planned + e.planned_sec,
               measured := d.measured + e.duration_sec,
               entries := d.entries ++ [e] }) :: t
      else (k', d) :: occInsert t k e

/-- State accumulated by the first (per-entry) loop of the constructor.
The source also accumulates `task_planned_measured` (keyed by description
alone); it is consumed by no table and by no claim, so it is omitted. -/
structure Phase1 where
  total_duration : Nat
  project_durations : List (String × Nat)
  tag_durations : List (String × Nat)
  spont_dice : Nat
  spont_cal : Nat
  task_occurrences : List (OccKey × OccData)

/-- One iteration of the entry loop. -/
def step1 (s : Phase1) (e : TimeEntry) : Phase1 :=
  { total_duration := s.total_duration + e.duration_sec
    project_durations := addAssoc s.project_durations e.project_name e.duration_sec
    tag_durations := e.tag_names.foldl (fun acc tag => addAssoc acc tag e.duration_sec) s.tag_durations
    spont_dice := if e.is_spontaneous then s.spont_dice + e.duration_sec else s.spont_dice
    spont_cal :=
      if e.is_spontaneous then s.spont_cal
      else if e.is_scheduled then s.spont_cal + e.duration_sec
      else s.spont_cal
    task_occurrences := occInsert s.task_occurrences (occKey e) e }

/-- Initial phase-1 state. -/
def init1 : Phase1 :=
  { total_duration := 0, project_durations := [], tag_durations := []
    spont_dice := 0, spont_cal := 0, task_occurrences := [] }

/-- The whole entry loop. -/
def phase1 (entries : List TimeEntry) : Phase1 :=
  entries.foldl step1 init1

/-! ## Tag allocation (`# Allocate to tags proportionally`) -/

/-- Python `int(round(n / D))` with round-half-to-even, for `n D : Nat`, `D > 0`. -/
def pyRoundNat (n D : Nat) : Nat :=
  let fl := n / D
  let r := n % D
  if 2 * r < D then fl
  else if D < 2 * r then fl + 1
  else if fl % 2 = 0 then fl else fl + 1

/-- Per-tag measured durations of an occurrence's member entries
(an entry contributes its full duration to each of its tags). -/
def tagDurationsOf (entries : List TimeEntry) : List (String × Nat) :=
  entries.foldl
    (fun acc e => e.tag_names.foldl (fun acc2 tag => addAssoc acc2 tag e.duration_sec) acc)
    []

/-- `total_occ_duration`: sum of the member entries' measured durations. -/
def totalOccDuration (entries : List TimeEntry) : Nat :=
  entries.foldl (fun a e => a + e.duration_sec) 0

/-- The allocation loop: every tag but the last gets
`int(round(abs_diff * (dur / D)))`, the last gets `abs_diff - allocated_sum`
(which may be negative). -/
def allocAux (absDiff D : Nat) : List (String × Nat) → Nat → List (String × Int)
  | [], _ => []
  | [(tag, _)], allocatedSum => [(tag, (absDiff : Int) - (allocatedSum : Int))]
  | (tag, dur) :: rest, allocatedSum =>
      let a := pyRoundNat (absDiff * dur) D
      (tag, (a : Int)) :: allocAux absDiff D rest (allocatedSum + a)

/-- Tag allocation for one occurrence, including the equal-weight fallback
(`total_occ_duration <= 0`: every weight becomes `1 / N`).  When the
occurrence has no tags the result is `[]`, which makes the source's
`if tag_durations:` guard a no-op. -/
def tagAllocations (entries : List TimeEntry) (absDiff : Nat) : List (String × Int) :=
  let tl := tagDurationsOf entries
  let D := totalOccDuration entries
  let tl2 := if D = 0 then tl.map (fun p => (p.1, (1 : Nat))) else tl
  let D2 := if D = 0 then tl.length else D
  allocAux absDiff D2 tl2 0

/-! ## Phase 2 of `ReportGenerator.__init__`: the occurrence loop -/

/-- Deviation state: `plan_deviation_totals` plus the four precomputed
per-dimension allocation dicts. -/
structure DevState where
  over : Int
  under : Int
  absTot : Int
  project_plan_diffs : List (String × Pools)
  subproject_plan_diffs : List ((String × String) × Pools)
  tag_plan_diffs : List (String × Pools)
  spont_plan_diffs : List (String × Pools)
deriving DecidableEq

/-- `if diff > 0: over += diff elif diff < 0: under += abs(diff)`;
then `abs += abs(diff)`. -/
def addTotals (s : DevState) (diff : Int) : DevState :=
  let s1 :=
    if 0 < diff then { s with over := s.over + diff }
    else if diff < 0 then { s with under := s.under + (-diff) }
    else s
  { s1 with absTot := s1.absTot + |diff| }

/-- Spontaneity allocation: whole deviation to the class of the *first*
member entry; nothing when the first entry is neither marked. -/
def spontApply (diff : Int) (entries : List TimeEntry) (l : List (String × Pools)) :
    List (String × Pools) :=
  match entries with
  | [] => l
  | first :: _ =>
      if first.is_spontaneous || first.is_scheduled then
        applyDiffPools diff (if first.is_spontaneous then "🎲" else "🗓️") l
      else l

/-- Tag allocation fold: `more_plan += allocated` when over plan, otherwise
`less_plan += allocated` (the signed `allocated` itself, as in the source). -/
def tagApply (diff : Int) (entries : List TimeEntry) (l : List (String × Pools)) :
    List (String × Pools) :=
  if diff = 0 then l
  else
    (tagAllocations entries diff.natAbs).foldl
      (fun acc p => if 0 < diff then bumpMore acc p.1 p.2 else bumpLess acc p.1 p.2) l

/-- One iteration of the occurrence loop.  When `planned = 0` the body is
skipped entirely (`diff` is forced to 0 and the `if planned > 0` guard
fails), so the state is returned unchanged. -/
def devStep (s : DevState) (kv : OccKey × OccData) : DevState :=
  let project := kv.1.1.2.1
  let task_name := kv.1.1.2.2
  let d := kv.2
  if 0 < d.planned then
    let diff : Int := (d.measured : Int) - (d.planned : Int)
    let s2 := addTotals s diff
    let s3 := { s2 with project_plan_diffs := applyDiffPools diff project s2.project_plan_diffs }
    let s4 := { s3 with subproject_plan_diffs :=
                  applyDiffPools diff (task_name, project) s3.subproject_plan_diffs }
    let s5 := { s4 with spont_plan_diffs := spontApply diff d.entries s4.spont_plan_diffs }
    { s5 with tag_plan_diffs := tagApply diff d.entries s5.tag_plan_diffs }
  else s

/-- Initial deviation state. -/
def devInit : DevState :=
  { over := 0, under := 0, absTot := 0, project_plan_diffs := []
    subproject_plan_diffs := [], tag_plan_diffs := [], spont_plan_diffs := [] }

/-! ## The assembled report state -/

/-- Everything `ReportGenerator.__init__` computes that the claims consume. -/
structure Report where
  total_duration : Nat
  project_durations : List (String × Nat)
  tag_durations : List (String × Nat)
  spont_dice : Nat
  spont_cal : Nat
  task_occurrences : List (OccKey × OccData)
  over : Int
  under : Int
  absTot : Int
  project_plan_diffs : List (String × Pools)
  subproject_plan_diffs : List ((String × String) × Pools)
  tag_plan_diffs : List (String × Pools)
  spont_plan_diffs : List (String × Pools)

/-- `ReportGenerator.__init__(entries, ...)`. -/
def reportOf (entries : List TimeEntry) : Report :=
  let p := phase1 entries
  let dv := p.task_occurrences.foldl devStep devInit
  { total_duration := p.total_duration
    project_durations := p.project_durations
    tag_durations := p.tag_durations
    spont_dice := p.spont_dice
    spont_cal := p.spont_cal
    task_occurrences := p.task_occurrences
    over := dv.over
    under := dv.under
    absTot := dv.absTot
    project_plan_diffs := dv.project_plan_diffs
    subproject_plan_diffs := dv.subproject_plan_diffs
    tag_plan_diffs := dv.tag_plan_diffs
    spont_plan_diffs := dv.spont_plan_diffs }

/-- `_generate_subproject_table`'s per-`(task_name, project)` duration sums,
computed at entry granularity. -/
def subproject_durations (entries : List TimeEntry) : List ((String × String) × Nat) :=
  entries.foldl (fun acc e => addAssoc acc (e.task_name, e.project_name) e.duration_sec) []

/-! ## `format_utils.percent` and the totals-table percentages -/

/-- Round-half-to-even of `n / d` for integers, `d > 0`
(Python `round` and `"%.0f"`). -/
def roundHalfEvenInt (n d : Int) : Int :=
  let q := Int.fdiv n d
  let r := Int.fmod n d
  if 2 * r < d then q
  else if d < 2 * r then q + 1
  else if q % 2 = 0 then q else q + 1

/-- `format_utils.percent`: `f"{(val / total * 100):.0f}" if total else "0"`. -/
def percent (val total : Int) : String :=
  if total = 0 then "0" else toString (roundHalfEvenInt (val * 100) total)

/-- The per-row over/under percentage pattern of the dimension tables:
`percent(pool, secs) if secs > 0 else "0"`. -/
def rowPct (pool : Int) (secs : Nat) : String :=
  if 0 < secs then percent pool (secs : Int) else "0"

/-- The three deviation percentages of `_generate_totals_table`:
`f"{(t / total_duration * 100):.0f}%" if self.total_duration else "0%"`. -/
def totalsPcts (r : Report) : String × String × String :=
  ((if r.total_duration = 0 then "0%"
    else toString (roundHalfEvenInt (r.over * 100) (r.total_duration : Int)) ++ "%"),
   (if r.total_duration = 0 then "0%"
    else toString (roundHalfEvenInt (r.under * 100) (r.total_duration : Int)) ++ "%"),
   (if r.total_duration = 0 then "0%"
    else toString (roundHalfEvenInt (r.absTot * 100) (r.total_duration : Int)) ++ "%"))

/-! ## Derived notions used by the verification -/

/-- Positive part of an integer. -/
def posPart (d : Int) : Int := if 0 < d then d else 0

/-- Negative part of an integer (non-negative). -/
def negPart (d : Int) : Int := if d < 0 then -d else 0

/-- The signed deviation `measured - planned` of an occurrence. -/
def devDiff (kv : OccKey × OccData) : Int :=
  (kv.2.measured : Int) - (kv.2.planned : Int)

/-- Every bucket of a dimension has non-negative over-plan and under-plan pools. -/
def PoolsNonneg {κ : Type} (l : List (κ × Pools)) : Prop :=
  ∀ kp ∈ l, 0 ≤ kp.2.more_plan ∧ 0 ≤ kp.2.less_plan

/-- Invariant carried through the occurrence loop: the project and sub-task
dimensions mirror the report-wide over/under totals, `abs = over + under`,
and the project / sub-task / spontaneity pools stay non-negative. -/
def DevInv (s : DevState) : Prop :=
  sumMore s.project_plan_diffs = s.over ∧
  sumLess s.project_plan_diffs = s.under ∧
  sumMore s.subproject_plan_diffs = s.over ∧
  sumLess s.subproject_plan_diffs = s.under ∧
  s.absTot = s.over + s.under ∧
  PoolsNonneg s.project_plan_diffs ∧
  PoolsNonneg s.subproject_plan_diffs ∧
  PoolsNonneg s.spont_plan_diffs

/-- Rewrite every entry's label, leaving all other fields alone.  Changing
an entry's recurring classification is such a rewrite (the `🔁` marker lives
in the label). -/
def relabel (f : TimeEntry → String) (entries : List TimeEntry) : List TimeEntry :=
  entries.map (fun e => { e with description := f e })

/-! ## Concrete inputs used by witnesses and counterexamples -/

/-- Entry with planned 60 s, measured 120 s and three tags that each carry the
full measured duration: every tag weight is 1, so the last tag's remainder
share is negative. -/
def eTags3 : TimeEntry :=
  { description := "T {p0:01}", project_name := "P", task_name := "S",
    tag_names := ["a", "b", "c"], start_date := none, duration_sec := 120 }

/-- Entry with planned 3600 s, measured 7200 s, no marker glyphs and no tags. -/
def ePlain : TimeEntry :=
  { description := "T {p1:00}", project_name := "P", task_name := "S",
    tag_names := [], start_date := none, duration_sec := 7200 }

/-- An occurrence with no planned time but positive measured time. -/
def occNoPlan : OccKey × OccData :=
  ((("U", "P", "S"), none), { planned := 0, measured := 7200, entries := [] })

/-- Occurrence data for the tag-allocation witness: planned 60, measured 120,
member entries carrying tags. -/
def occTagged : OccData :=
  { planned := 60, measured := 120, entries := [eTags3] }

/-- Recurring entry (label carries `🔁`), day 1. -/
def eRec1 : TimeEntry :=
  { description := "A 🔁", project_name := "P", task_name := "S",
    tag_names := [], start_date := some 1, duration_sec := 100 }

/-- Recurring entry with the same identity as `eRec1`, day 2. -/
def eRec2 : TimeEntry :=
  { description := "A 🔁", project_name := "P", task_name := "S",
    tag_names := [], start_date := some 2, duration_sec := 200 }

/-- Non-recurring entry, day 1. -/
def eNr1 : TimeEntry :=
  { description := "B", project_name := "P", task_name := "S",
    tag_names := [], start_date := some 1, duration_sec := 100 }

/-- Non-recurring entry with the same identity as `eNr1`, day 2. -/
def eNr2 : TimeEntry :=
  { description := "B", project_name := "P", task_name := "S",
    tag_names := [], start_date := some 2, duration_sec := 200 }

/-- Recurring entry whose start timestamp is missing/unparseable. -/
def eRecNone1 : TimeEntry :=
  { description := "C 🔁", project_name := "P", task_name := "S",
    tag_names := [], start_date := none, duration_sec := 100 }

/-- Second recurring entry with the same identity and no start date. -/
def eRecNone2 : TimeEntry :=
  { description := "C 🔁", project_name := "P", task_name := "S",
    tag_names := [], start_date := none, duration_sec := 200 }

/-- Entry whose label carries both the spontaneous and the scheduled marker. -/
def eBoth : TimeEntry :=
  { description := "M 🎲 🗓️ {p1:00}", project_name := "P", task_name := "S",
    tag_names := [], start_date := none, duration_sec := 7200 }

/-- Occurrence whose first member entry carries both markers. -/
def occBoth : OccKey × OccData :=
  ((("M 🎲 🗓️ {p1:00}", "P", "S"), none),
   { planned := 3600, measured := 7200, entries := [eBoth] })

/-! ## Helper lemmas: association-list sums -/

theorem sumVals_nil {κ : Type} : sumVals ([] : List (κ × Nat)) = 0 := rfl

theorem sumVals_addAssoc {κ : Type} [DecidableEq κ] (l : List (κ × Nat)) (k : κ) (v : Nat) :
    sumVals (addAssoc l k v) = sumVals l + v := by
  induction l with
  | nil => simp [addAssoc, sumVals]
  | cons hd t ih =>
      obtain ⟨k', v'⟩ := hd
      by_cases h : k' = k
      · simp [addAssoc, h, sumVals]
        omega
      · simp only [addAssoc, if_neg h]
        simp [sumVals] at ih ⊢
        omega

theorem sumMore_bumpMore {κ : Type} [DecidableEq κ] (l : List (κ × Pools)) (k : κ) (v : Int) :
    sumMore (bumpMore l k v) = sumMore l + v := by
  induction l with
  | nil => simp [bumpMore, sumMore]
  | cons hd t ih =>
      obtain ⟨k', p⟩ := hd
      by_cases h : k' = k
      · simp [bumpMore, h, sumMore]
        ring
      · simp only [bumpMore, if_neg h]
        simp [sumMore] at ih ⊢
        omega

theorem sumLess_bumpMore {κ : Type} [DecidableEq κ] (l : List (κ × Pools)) (k : κ) (v : Int) :
    sumLess (bumpMore l k v) = sumLess l := by
  induction l with
  | nil => simp [bumpMore, sumLess]
  | cons hd t ih =>
      obtain ⟨k', p⟩ := hd
      by_cases h : k' = k
      · simp [bumpMore, h, sumLess]
      · simp only [bumpMore, if_neg h]
        simp [sumLess] at ih ⊢
        omega

theorem sumLess_bumpLess {κ : Type} [DecidableEq κ] (l : List (κ × Pools)) (k : κ) (v : Int) :
    sumLess (bumpLess l k v) = sumLess l + v := by
  induction l with
  | nil => simp [bumpLess, sumLess]
  | cons hd t ih =>
      obtain ⟨k', p⟩ := hd
      by_cases h : k' = k
      · simp [bumpLess, h, sumLess]
        ring
      · simp only [bumpLess, if_neg h]
        simp [sumLess] at ih ⊢
        omega

theorem sumMore_bumpLess {κ : Type} [DecidableEq κ] (l : List (κ × Pools)) (k : κ) (v : Int) :
    sumMore (bumpLess l k v) = sumMore l := by
  induction l with
  | nil => simp [bumpLess, sumMore]
  | cons hd t ih =>
      obtain ⟨k', p⟩ := hd
      by_cases h : k' = k
      · simp [bumpLess, h, sumMore]
      · simp only [bumpLess, if_neg h]
        simp [sumMore] at ih ⊢
        omega

/-! ## Helper lemmas: sign parts -/

theorem abs_eq_parts (d : Int) : |d| = posPart d + negPart d := by
  simp only [posPart, negPart]
  rcases lt_trichotomy d 0 with h | h | h
  · rw [abs_of_neg h, if_neg (by omega), if_pos h]
    omega
  · subst h
    simp
  · rw [abs_of_pos h, if_pos h, if_neg (by omega)]
    omega

theorem posPart_sub_negPart (d : Int) : posPart d - negPart d = d := by
  simp only [posPart, negPart]
  split_ifs <;> omega

theorem posPart_nonneg (d : Int) : 0 ≤ posPart d := by
  simp only [posPart]
  split_ifs <;> omega

theorem negPart_nonneg (d : Int) : 0 ≤ negPart d := by
  simp only [negPart]
  split_ifs <;> omega

/-! ## Helper lemmas: `applyDiffPools` and `addTotals` -/

theorem sumMore_applyDiffPools {κ : Type} [DecidableEq κ] (diff : Int) (k : κ)
    (l : List (κ × Pools)) :
    sumMore (applyDiffPools diff k l) = sumMore l + posPart diff := by
  simp only [applyDiffPools, posPart]
  split_ifs with h1 h2
  · exact sumMore_bumpMore l k diff
  · rw [sumMore_bumpLess]
    omega
  · omega

theorem sumLess_applyDiffPools {κ : Type} [DecidableEq κ] (diff : Int) (k : κ)
    (l : List (κ × Pools)) :
    sumLess (applyDiffPools diff k l) = sumLess l + negPart diff := by
  simp only [applyDiffPools, negPart]
  rcases lt_trichotomy diff 0 with h | h | h
  · rw [if_neg (by omega : ¬ 0 < diff), if_pos h, if_pos h, sumLess_bumpLess]
  · subst h
    simp
  · rw [if_pos h, if_neg (by omega : ¬ diff < 0), sumLess_bumpMore]
    omega

theorem addTotals_over (s : DevState) (d : Int) :
    (addTotals s d).over = s.over + posPart d := by
  simp only [addTotals, posPart]
  split_ifs <;> simp

theorem addTotals_under (s : DevState) (d : Int) :
    (addTotals s d).under = s.under + negPart d := by
  simp only [addTotals, negPart]
  split_ifs
  · omega
  · simp
  · simp
  · simp

theorem addTotals_absTot (s : DevState) (d : Int) :
    (addTotals s d).absTot = s.absTot + |d| := by
  simp only [addTotals]
  split_ifs <;> simp

theorem addTotals_project (s : DevState) (d : Int) :
    (addTotals s d).project_plan_diffs = s.project_plan_diffs := by
  simp only [addTotals]
  split_ifs <;> simp

theorem addTotals_subproject (s : DevState) (d : Int) :
    (addTotals s d).subproject_plan_diffs = s.subproject_plan_diffs := by
  simp only [addTotals]
  split_ifs <;> simp

theorem addTotals_spont (s : DevState) (d : Int) :
    (addTotals s d).spont_plan_diffs = s.spont_plan_diffs := by
  simp only [addTotals]
  split_ifs <;> simp

theorem addTotals_tag (s : DevState) (d : Int) :
    (addTotals s d).tag_plan_diffs = s.tag_plan_diffs := by
  simp only [addTotals]
  split_ifs <;> simp

/-! ## Helper lemmas: fields of `devStep` -/

theorem devStep_over (s : DevState) (kv : OccKey × OccData) (h : 0 < kv.2.planned) :
    (devStep s kv).over = s.over + posPart (devDiff kv) := by
  simp only [devStep, if_pos h, devDiff]
  simp [addTotals_over]

theorem devStep_under (s : DevState) (kv : OccKey × OccData) (h : 0 < kv.2.planned) :
    (devStep s kv).under = s.under + negPart (devDiff kv) := by
  simp only [devStep, if_pos h, devDiff]
  simp [addTotals_under]

theorem devStep_absTot (s : DevState) (kv : OccKey × OccData) (h : 0 < kv.2.planned) :
    (devStep s kv).absTot = s.absTot + |devDiff kv| := by
  simp only [devStep, if_pos h, devDiff]
  simp [addTotals_absTot]

theorem devStep_project (s : DevState) (kv : OccKey × OccData) (h : 0 < kv.2.planned) :
    (devStep s kv).project_plan_diffs
      = applyDiffPools (devDiff kv) kv.1.1.2.1 s.project_plan_diffs := by
  simp only [devStep, if_pos h, devDiff]
  simp [addTotals_project]

theorem devStep_subproject (s : DevState) (kv : OccKey × OccData) (h : 0 < kv.2.planned) :
    (devStep s kv).subproject_plan_diffs
      = applyDiffPools (devDiff kv) (kv.1.1.2.2, kv.1.1.2.1) s.subproject_plan_diffs := by
  simp only [devStep, if_pos h, devDiff]
  simp [addTotals_subproject]

theorem devStep_spont (s : DevState) (kv : OccKey × OccData) (h : 0 < kv.2.planned) :
    (devStep s kv).spont_plan_diffs
      = spontApply (devDiff kv) kv.2.entries s.spont_plan_diffs := by
  simp only [devStep, if_pos h, devDiff]
  simp [addTotals_spont]

theorem devStep_tag (s : DevState) (kv : OccKey × OccData) (h : 0 < kv.2.planned) :
    (devStep s kv).tag_plan_diffs
      = tagApply (devDiff kv) kv.2.entries s.tag_plan_diffs := by
  simp only [devStep, if_pos h, devDiff]
  simp [addTotals_tag]

/-! ## Helper lemmas: non-negativity of pools -/

theorem poolsNonneg_bumpMore {κ : Type} [DecidableEq κ] (l : List (κ × Pools)) (k : κ) (v : Int)
    (hl : PoolsNonneg l) (hv : 0 ≤ v) : PoolsNonneg (bumpMore l k v) := by
  induction l with
  | nil =>
      intro kp hkp
      simp only [bumpMore, List.mem_singleton] at hkp
      subst hkp
      exact ⟨by simpa using hv, by simp⟩
  | cons hd t ih =>
      obtain ⟨k', p⟩ := hd
      have hp := hl (k', p) (by simp)
      have ht : PoolsNonneg t := fun kp hkp => hl kp (by simp [hkp])
      intro kp hkp
      by_cases h : k' = k
      · simp only [bumpMore, if_pos h] at hkp
        rcases List.mem_cons.mp hkp with rfl | hmem
        · exact ⟨by simpa using add_nonneg hp.1 hv, by simpa using hp.2⟩
        · exact hl kp (by simp [hmem])
      · simp only [bumpMore, if_neg h] at hkp
        rcases List.mem_cons.mp hkp with rfl | hmem
        · exact hp
        · exact ih ht kp hmem

theorem poolsNonneg_bumpLess {κ : Type} [DecidableEq κ] (l : List (κ × Pools)) (k : κ) (v : Int)
    (hl : PoolsNonneg l) (hv : 0 ≤ v) : PoolsNonneg (bumpLess l k v) := by
  induction l with
  | nil =>
      intro kp hkp
      simp only [bumpLess, List.mem_singleton] at hkp
      subst hkp
      exact ⟨by simp, by simpa using hv⟩
  | cons hd t ih =>
      obtain ⟨k', p⟩ := hd
      have hp := hl (k', p) (by simp)
      have ht : PoolsNonneg t := fun kp hkp => hl kp (by simp [hkp])
      intro kp hkp
      by_cases h : k' = k
      · simp only [bumpLess, if_pos h] at hkp
        rcases List.mem_cons.mp hkp with rfl | hmem
        · exact ⟨by simpa using hp.1, by simpa using add_nonneg hp.2 hv⟩
        · exact hl kp (by simp [hmem])
      · simp only [bumpLess, if_neg h] at hkp
        rcases List.mem_cons.mp hkp with rfl | hmem
        · exact hp
        · exact ih ht kp hmem

theorem poolsNonneg_applyDiffPools {κ : Type} [DecidableEq κ] (diff : Int) (k : κ)
    (l : List (κ × Pools)) (hl : PoolsNonneg l) : PoolsNonneg (applyDiffPools diff k l) := by
  simp only [applyDiffPools]
  split_ifs with h1 h2
  · exact poolsNonneg_bumpMore l k diff hl (by omega)
  · exact poolsNonneg_bumpLess l k (-diff) hl (by omega)
  · exact hl

theorem poolsNonneg_spontApply (diff : Int) (entries : List TimeEntry)
    (l : List (String × Pools)) (hl : PoolsNonneg l) : PoolsNonneg (spontApply diff entries l) := by
  match entries with
  | [] => exact hl
  | first :: rest =>
      simp only [spontApply]
      split_ifs
      · exact poolsNonneg_applyDiffPools _ _ _ hl
      · exact poolsNonneg_applyDiffPools _ _ _ hl
      · exact hl

/-! ## Helper lemmas: the occurrence-loop invariant -/

theorem devStep_inv (s : DevState) (kv : OccKey × OccData) (h : DevInv s) :
    DevInv (devStep s kv) := by
  by_cases hp : 0 < kv.2.planned
  · obtain ⟨h1, h2, h3, h4, h5, h6, h7, h8⟩ := h
    refine ⟨?_, ?_, ?_, ?_, ?_, ?_, ?_, ?_⟩
    · rw [devStep_project s kv hp, devStep_over s kv hp, sumMore_applyDiffPools, h1]
    · rw [devStep_project s kv hp, devStep_under s kv hp, sumLess_applyDiffPools, h2]
    · rw [devStep_subproject s kv hp, devStep_over s kv hp, sumMore_applyDiffPools, h3]
    · rw [devStep_subproject s kv hp, devStep_under s kv hp, sumLess_applyDiffPools, h4]
    · rw [devStep_absTot s kv hp, devStep_over s kv hp, devStep_under s kv hp,
        abs_eq_parts, h5]
      ring
    · rw [devStep_project s kv hp]
      exact poolsNonneg_applyDiffPools _ _ _ h6
    · rw [devStep_subproject s kv hp]
      exact poolsNonneg_applyDiffPools _ _ _ h7
    · rw [devStep_spont s kv hp]
      exact poolsNonneg_spontApply _ _ _ h8
  · simpa [devStep, hp] using h

theorem devInit_inv : DevInv devInit := by
  refine ⟨rfl, rfl, rfl, rfl, rfl, ?_, ?_, ?_⟩ <;> intro kp hkp <;> simp [devInit] at hkp

theorem foldl_devStep_inv (occs : List (OccKey × OccData)) (s : DevState) (h : DevInv s) :
    DevInv (occs.foldl devStep s) := by
  induction occs generalizing s with
  | nil => exact h
  | cons o t ih => exact ih (devStep s o) (devStep_inv s o h)

/-! ## Helper lemmas: projections of the entry loop -/

theorem foldl_step1_project (entries : List TimeEntry) (s : Phase1) :
    (entries.foldl step1 s).project_durations
      = entries.foldl (fun acc e => addAssoc acc e.project_name e.duration_sec)
          s.project_durations := by
  induction entries generalizing s with
  | nil => rfl
  | cons e t ih => exact ih (step1 s e)

theorem foldl_step1_total (entries : List TimeEntry) (s : Phase1) :
    (entries.foldl step1 s).total_duration
      = entries.foldl (fun a e => a + e.duration_sec) s.total_duration := by
  induction entries generalizing s with
  | nil => rfl
  | cons e t ih => exact ih (step1 s e)

theorem foldl_step1_occurrences (entries : List TimeEntry) (s : Phase1) :
    (entries.foldl step1 s).task_occurrences
      = entries.foldl (fun acc e => occInsert acc (occKey e) e) s.task_occurrences := by
  induction entries generalizing s with
  | nil => rfl
  | cons e t ih => exact ih (step1 s e)

theorem sumVals_foldl_addAssoc {κ : Type} [DecidableEq κ] (key : TimeEntry → κ)
    (entries : List TimeEntry) (acc : List (κ × Nat)) :
    sumVals (entries.foldl (fun a e => addAssoc a (key e) e.duration_sec) acc)
      = sumVals acc + (entries.map (fun e => e.duration_sec)).sum := by
  induction entries generalizing acc with
  | nil => simp
  | cons e t ih =>
      simp only [List.foldl_cons, List.map_cons, List.sum_cons]
      rw [ih (addAssoc acc (key e) e.duration_sec), sumVals_addAssoc]
      omega

theorem foldl_add_duration (entries : List TimeEntry) (n : Nat) :
    entries.foldl (fun a e => a + e.duration_sec) n
      = n + (entries.map (fun e => e.duration_sec)).sum := by
  induction entries generalizing n with
  | nil => simp
  | cons e t ih =>
      simp only [List.foldl_cons, List.map_cons, List.sum_cons]
      rw [ih (n + e.duration_sec)]
      omega

/-! ## Helper lemmas: relabelling leaves all duration sums alone -/

theorem foldl_addAssoc_relabel {κ : Type} [DecidableEq κ] (key : TimeEntry → κ)
    (hkey : ∀ e str, key { e with description := str } = key e)
    (f : TimeEntry → String) (entries : List TimeEntry) (acc : List (κ × Nat)) :
    (relabel f entries).foldl (fun a e => addAssoc a (key e) e.duration_sec) acc
      = entries.foldl (fun a e => addAssoc a (key e) e.duration_sec) acc := by
  induction entries generalizing acc with
  | nil => rfl
  | cons e t ih =>
      simp only [relabel, List.map_cons, List.foldl_cons] at ih ⊢
      rw [hkey e (f e)]
      exact ih _

theorem foldl_duration_relabel (f : TimeEntry → String) (entries : List TimeEntry) (n : Nat) :
    (relabel f entries).foldl (fun a e => a + e.duration_sec) n
      = entries.foldl (fun a e => a + e.duration_sec) n := by
  induction entries generalizing n with
  | nil => rfl
  | cons e t ih =>
      simp only [relabel, List.map_cons, List.foldl_cons] at ih ⊢
      exact ih _

/-! ## Helper lemmas: occurrence grouping under one shared key -/

theorem foldl_occInsert_same_key (k : OccKey) (entries : List TimeEntry)
    (hall : ∀ e ∈ entries, occKey e = k) (d : OccData) :
    ∃ d', entries.foldl (fun acc e => occInsert acc (occKey e) e) [(k, d)] = [(k, d')] ∧
      d'.entries = d.entries ++ entries := by
  induction entries generalizing d with
  | nil => exact ⟨d, rfl, by simp⟩
  | cons e t ih =>
      have hke : occKey e = k := hall e (by simp)
      have hstep : occInsert [(k, d)] (occKey e) e
          = [(k, { planned := d.planned + e.planned_sec,
                   measured := d.measured + e.duration_sec,
                   entries := d.entries ++ [e] })] := by
        simp [occInsert, hke]
      obtain ⟨d', hd1, hd2⟩ := ih (fun x hx => hall x (by simp [hx]))
        { planned := d.planned + e.planned_sec,
          measured := d.measured + e.duration_sec,
          entries := d.entries ++ [e] }
      refine ⟨d', ?_, ?_⟩
      · simpa [hstep] using hd1
      · simp [hd2]

/-! ## Helper lemmas: the tag-allocation loop -/

theorem allocAux_sum (absDiff D : Nat) (tl : List (String × Nat)) :
    ∀ acc : Nat, tl ≠ [] →
      ((allocAux absDiff D tl acc).map Prod.snd).sum = (absDiff : Int) - (acc : Int) := by
  induction tl with
  | nil => intro acc hne; exact absurd rfl hne
  | cons hd t ih =>
      intro acc _
      obtain ⟨tag, dur⟩ := hd
      cases t with
      | nil => simp [allocAux]
      | cons hd2 t2 =>
          simp only [allocAux, List.map_cons, List.sum_cons]
          rw [ih (acc + pyRoundNat (absDiff * dur) D) (by simp)]
          push_cast
          ring

/-! ## Helper lemmas: the planned-duration scanner -/

theorem takeWhile_all_append {p : Char → Bool} (l : List Char) (hl : ∀ c ∈ l, p c = true)
    (c0 : Char) (hc : p c0 = false) (t : List Char) :
    (l ++ c0 :: t).takeWhile p = l := by
  induction l with
  | nil => simp [List.takeWhile_cons, hc]
  | cons a as ih =>
      have ha : p a = true := hl a (by simp)
      simp only [List.cons_append, List.takeWhile_cons, ha, if_true]
      rw [ih (fun c hcc => hl c (by simp [hcc]))]

theorem dropWhile_all_append {p : Char → Bool} (l : List Char) (hl : ∀ c ∈ l, p c = true)
    (c0 : Char) (hc : p c0 = false) (t : List Char) :
    (l ++ c0 :: t).dropWhile p = c0 :: t := by
  induction l with
  | nil => simp [List.dropWhile_cons, hc]
  | cons a as ih =>
      have ha : p a = true := hl a (by simp)
      simp only [List.cons_append, List.dropWhile_cons, ha, if_true]
      exact ih (fun c hcc => hl c (by simp [hcc]))

theorem matchMinutes_exact (mds suf : List Char) (hmd : ∀ c ∈ mds, c.isDigit = true)
    (hlen : mds.length = 1 ∨ mds.length = 2) :
    matchMinutes (mds ++ '}' :: suf) = some (natOfDigits mds) := by
  rcases hlen with h1 | h2
  · obtain ⟨m, rfl⟩ := List.length_eq_one.mp h1
    have hm : m.isDigit = true := hmd m (by simp)
    cases suf with
    | nil => simp [matchMinutes, hm, natOfDigits]
    | cons s0 ss =>
        have hbr : ('}' : Char).isDigit = false := by decide
        simp [matchMinutes, hm, hbr, natOfDigits]
  · obtain ⟨m1, m2, rfl⟩ := List.length_eq_two.mp h2
    have hm1 : m1.isDigit = true := hmd m1 (by simp)
    have hm2 : m2.isDigit = true := hmd m2 (by simp)
    simp [matchMinutes, hm1, hm2, natOfDigits]

theorem matchPlannedAt_exact (hds mds suf : List Char) (hh : hds ≠ [])
    (hhd : ∀ c ∈ hds, c.isDigit = true) (hmd : ∀ c ∈ mds, c.isDigit = true)
    (hlen : mds.length = 1 ∨ mds.length = 2) :
    matchPlannedAt ('{' :: 'p' :: (hds ++ ':' :: (mds ++ '}' :: suf)))
      = some (natOfDigits hds, natOfDigits mds) := by
  have hcolon : (':' : Char).isDigit = false := by decide
  simp only [matchPlannedAt, and_self, if_true]
  rw [takeWhile_all_append hds hhd ':' hcolon, dropWhile_all_append hds hhd ':' hcolon]
  simp only [if_neg hh, if_pos rfl]
  rw [matchMinutes_exact mds suf hmd hlen]
  rfl

theorem matchPlannedAt_ne_brace (c : Char) (l : List Char) (hc : c ≠ '{') :
    matchPlannedAt (c :: l) = none := by
  cases l with
  | nil => rfl
  | cons c2 r => simp [matchPlannedAt, hc]

theorem searchPlanned_append_no_brace (pre rest : List Char) (hpre : ∀ c ∈ pre, c ≠ '{') :
    searchPlanned (pre ++ rest) = searchPlanned rest := by
  induction pre with
  | nil => rfl
  | cons c t ih =>
      have hm := matchPlannedAt_ne_brace c (t ++ rest) (hpre c (by simp))
      simp only [List.cons_append, searchPlanned, List.append_eq, hm]
      exact ih (fun x hx => hpre x (by simp [hx]))

theorem searchPlanned_no_brace (l : List Char) (h : ∀ c ∈ l, c ≠ '{') :
    searchPlanned l = none := by
  induction l with
  | nil => rfl
  | cons c t ih =>
      have hm := matchPlannedAt_ne_brace c t (h c (by simp))
      simp only [searchPlanned, hm]
      exact ih (fun x hx => h x (by simp [hx]))

/-! ## Claim theorems -/

/-- C1: for every occurrence with positive planned time, non-zero deviation
and at least one distinct tag among its member entries, the per-tag
allocations (rounded proportional share per tag, the last tag in iteration
order taking `abs(deviation) - sum already allocated`) sum exactly to
`abs(deviation_seconds)`, for any number of distinct tags. -/
theorem c1_tag_allocation_sum_exact (d : OccData) (_hplan : 0 < d.planned)
    (_hdev : (d.measured : Int) - (d.planned : Int) ≠ 0)
    (htags : tagDurationsOf d.entries ≠ []) :
    ((tagAllocations d.entries ((d.measured : Int) - (d.planned : Int)).natAbs).map
        Prod.snd).sum
      = (((d.measured : Int) - (d.planned : Int)).natAbs : Int) := by
  simp only [tagAllocations]
  split_ifs with hD
  · rw [allocAux_sum _ _ _ 0 (by simpa using htags)]
    simp
  · rw [allocAux_sum _ _ _ 0 htags]
    simp

/-- C1 witness: the concrete occurrence `occTagged` (planned 60, measured 120,
three distinct tags) satisfies the hypotheses and its tag allocations sum to
its absolute deviation. -/
theorem c1_tag_allocation_sum_exact_witness :
    0 < occTagged.planned ∧
    (occTagged.measured : Int) - (occTagged.planned : Int) ≠ 0 ∧
    tagDurationsOf occTagged.entries ≠ [] ∧
    ((tagAllocations occTagged.entries
        ((occTagged.measured : Int) - (occTagged.planned : Int)).natAbs).map Prod.snd).sum
      = (((occTagged.measured : Int) - (occTagged.planned : Int)).natAbs : Int) :=
  ⟨by decide, by decide, by decide,
   c1_tag_allocation_sum_exact occTagged (by decide) (by decide) (by decide)⟩

/-- C2 counterexample: for the one-entry batch `[ePlain]` (planned 3600,
measured 7200, first entry neither spontaneous nor scheduled, no tags) the
report-wide over total is 3600 but the spontaneity dimension's over-plan
pools (and the tag dimension's) sum to 0 — projecting onto *any single*
dimension does not reproduce the report-wide totals. -/
theorem c2_any_dimension_counterexample :
    (reportOf [ePlain]).over = 3600 ∧
    sumMore (reportOf [ePlain]).spont_plan_diffs = 0 ∧
    sumMore (reportOf [ePlain]).tag_plan_diffs = 0 ∧
    sumMore (reportOf [ePlain]).spont_plan_diffs ≠ (reportOf [ePlain]).over := by
  refine ⟨by decide, by decide, by decide, by decide⟩

/-- C2 (amended): projecting the allocated deviations onto the *project* or
the *sub-task* dimension reproduces the report totals — over-plan pools sum
to the report-wide over total, under-plan pools to the under total, and
`abs = over + under`; and per occurrence with positive planned time, the
signed over-minus-under delta reconstructed from the project (or sub-task)
allocation equals `measured - planned`.  The spontaneity and tag dimensions
satisfy this only when every deviating occurrence reaches them (see the
counterexample). -/
theorem c2_project_subtask_projection (entries : List TimeEntry) :
    (sumMore (reportOf entries).project_plan_diffs = (reportOf entries).over ∧
     sumLess (reportOf entries).project_plan_diffs = (reportOf entries).under ∧
     sumMore (reportOf entries).subproject_plan_diffs = (reportOf entries).over ∧
     sumLess (reportOf entries).subproject_plan_diffs = (reportOf entries).under ∧
     (reportOf entries).absTot = (reportOf entries).over + (reportOf entries).under) ∧
    (∀ (s : DevState) (kv : OccKey × OccData), 0 < kv.2.planned →
      (sumMore (devStep s kv).project_plan_diffs - sumLess (devStep s kv).project_plan_diffs)
          - (sumMore s.project_plan_diffs - sumLess s.project_plan_diffs)
        = (kv.2.measured : Int) - (kv.2.planned : Int) ∧
      (sumMore (devStep s kv).subproject_plan_diffs
          - sumLess (devStep s kv).subproject_plan_diffs)
          - (sumMore s.subproject_plan_diffs - sumLess s.subproject_plan_diffs)
        = (kv.2.measured : Int) - (kv.2.planned : Int)) := by
  constructor
  · have h := foldl_devStep_inv (phase1 entries).task_occurrences devInit devInit_inv
    exact ⟨h.1, h.2.1, h.2.2.1, h.2.2.2.1, h.2.2.2.2.1⟩
  · intro s kv hp
    have hd := posPart_sub_negPart (devDiff kv)
    simp only [devDiff] at hd
    constructor
    · rw [devStep_project s kv hp, sumMore_applyDiffPools, sumLess_applyDiffPools]
      simp only [devDiff]
      omega
    · rw [devStep_subproject s kv hp, sumMore_applyDiffPools, sumLess_applyDiffPools]
      simp only [devDiff]
      omega

/-- C2 witness: the per-occurrence reconstruction at the concrete occurrence
`occBoth` (planned 3600, measured 7200). -/
theorem c2_project_subtask_projection_witness :
    0 < occBoth.2.planned ∧
    (sumMore (devStep devInit occBoth).project_plan_diffs
        - sumLess (devStep devInit occBoth).project_plan_diffs)
        - (sumMore devInit.project_plan_diffs - sumLess devInit.project_plan_diffs)
      = (occBoth.2.measured : Int) - (occBoth.2.planned : Int) :=
  ⟨by decide, ((c2_project_subtask_projection []).2 devInit occBoth (by decide)).1⟩

/-- C3 counterexample: in the report over `[eTags3]` the tag bucket "c" holds
a *negative* over-plan pool (-60): each of the three tags carries the full
measured duration, so the first two rounded shares already exhaust twice the
deviation and the last-tag remainder goes below zero.  Hence not every
dimension bucket's accumulated pools are non-negative. -/
theorem c3_negative_tag_pool_counterexample :
    ("c", ({ less_plan := 0, more_plan := -60 } : Pools)) ∈ (reportOf [eTags3]).tag_plan_diffs ∧
    ((-60 : Int) < 0) := by
  refine ⟨by decide, by decide⟩

/-- C3 (amended): in every report, every *project*, *sub-task* and
*spontaneity* bucket's accumulated over-plan and under-plan pools are
non-negative integers; *tag* buckets can go negative through the last-tag
remainder rule (see the counterexample). -/
theorem c3_pools_nonneg_project_subtask_spont (entries : List TimeEntry) :
    PoolsNonneg (reportOf entries).project_plan_diffs ∧
    PoolsNonneg (reportOf entries).subproject_plan_diffs ∧
    PoolsNonneg (reportOf entries).spont_plan_diffs := by
  have h := foldl_devStep_inv (phase1 entries).task_occurrences devInit devInit_inv
  exact ⟨h.2.2.2.2.2.1, h.2.2.2.2.2.2.1, h.2.2.2.2.2.2.2⟩

/-- C3 witness: the project bucket of the report over `[eTags3]` is
`("P", ⟨0, 60⟩)` and the theorem yields its non-negativity. -/
theorem c3_pools_nonneg_witness :
    0 ≤ ({ less_plan := 0, more_plan := 60 } : Pools).more_plan ∧
    0 ≤ ({ less_plan := 0, more_plan := 60 } : Pools).less_plan :=
  (c3_pools_nonneg_project_subtask_spont [eTags3]).1
    ("P", { less_plan := 0, more_plan := 60 }) (by decide)

/-- C4: an occurrence whose `planned_seconds` is 0 contributes exactly 0 to
every deviation total — the occurrence-loop step leaves the whole deviation
state (report-wide over/under/abs totals and every project, sub-task, tag
and spontaneity pool) unchanged — even when its `measured_seconds > 0`. -/
theorem c4_zero_planned_no_contribution (s : DevState) (kv : OccKey × OccData)
    (h : kv.2.planned = 0) : devStep s kv = s := by
  simp [devStep, h]

/-- C4 witness: the occurrence `occNoPlan` has planned 0 and measured 7200,
and stepping it changes nothing. -/
theorem c4_zero_planned_no_contribution_witness :
    occNoPlan.2.planned = 0 ∧ 0 < occNoPlan.2.measured ∧
    devStep devInit occNoPlan = devInit :=
  ⟨rfl, by decide, c4_zero_planned_no_contribution devInit occNoPlan rfl⟩

/-- C5: for two entries sharing the identity key `(label, project, subtask)`:
if both are recurring and their start dates differ they form two distinct
occurrences; if both are non-recurring they form one occurrence regardless
of their start dates. -/
theorem c5_recurring_vs_nonrecurring_grouping (e1 e2 : TimeEntry)
    (hid : identityKey e1 = identityKey e2) :
    (e1.is_recurring = true → e2.is_recurring = true → e1.start_date ≠ e2.start_date →
      (reportOf [e1, e2]).task_occurrences.length = 2) ∧
    (e1.is_recurring = false → e2.is_recurring = false →
      (reportOf [e1, e2]).task_occurrences.length = 1) := by
  have hto : (reportOf [e1, e2]).task_occurrences
      = occInsert (occInsert [] (occKey e1) e1) (occKey e2) e2 := rfl
  constructor
  · intro hr1 hr2 hdate
    have hk : ¬ (occKey e1 = occKey e2) := by
      intro heq
      apply hdate
      simpa [occKey, hr1, hr2] using congrArg Prod.snd heq
    rw [hto]
    simp [occInsert, hk]
  · intro hn1 hn2
    have hk : occKey e1 = occKey e2 := by
      simp [occKey, hn1, hn2, hid]
    rw [hto]
    simp [occInsert, hk]

/-- C5 witness: `eRec1`/`eRec2` are recurring with the same identity on days 1
and 2 and give two occurrences; `eNr1`/`eNr2` are non-recurring with the same
identity on days 1 and 2 and give one. -/
theorem c5_recurring_vs_nonrecurring_grouping_witness :
    (reportOf [eRec1, eRec2]).task_occurrences.length = 2 ∧
    (reportOf [eNr1, eNr2]).task_occurrences.length = 1 :=
  ⟨(c5_recurring_vs_nonrecurring_grouping eRec1 eRec2 rfl).1 (by decide) (by decide) (by decide),
   (c5_recurring_vs_nonrecurring_grouping eNr1 eNr2 rfl).2 (by decide) (by decide)⟩

/-- C6: all recurring entries with missing/unparseable start timestamps
(`start_date = none`) and one shared identity key collapse into exactly one
occurrence via the degenerate none-date grouping key, and no entry is dropped
(the single occurrence's member list is the whole batch, in order); the
grouping is a total function, so no error can be raised. -/
theorem c6_degenerate_date_single_occurrence (idk : String × String × String)
    (entries : List TimeEntry) (hne : entries ≠ [])
    (hall : ∀ e ∈ entries, e.is_recurring = true ∧ e.start_date = none ∧ identityKey e = idk) :
    (reportOf entries).task_occurrences.length = 1 ∧
    ((reportOf entries).task_occurrences.map (fun kv => kv.2.entries)).flatten = entries := by
  have hkey : ∀ e ∈ entries, occKey e = (idk, none) := by
    intro e he
    obtain ⟨hr, hs, hi⟩ := hall e he
    simp [occKey, hr, hs, hi]
  cases entries with
  | nil => exact absurd rfl hne
  | cons e0 rest =>
      have h0 : occKey e0 = (idk, none) := hkey e0 (by simp)
      have hto : (reportOf (e0 :: rest)).task_occurrences
          = rest.foldl (fun acc e => occInsert acc (occKey e) e)
              [((idk, none),
                { planned := e0.planned_sec, measured := e0.duration_sec, entries := [e0] })] := by
        have hbase : (reportOf (e0 :: rest)).task_occurrences
            = (e0 :: rest).foldl (fun acc e => occInsert acc (occKey e) e) [] := by
          simpa using foldl_step1_occurrences (e0 :: rest) init1
        rw [hbase]
        simp only [List.foldl_cons]
        rw [h0]
        rfl
      obtain ⟨d', hd1, hd2⟩ := foldl_occInsert_same_key (idk, none) rest
        (fun e he => hkey e (by simp [he]))
        { planned := e0.planned_sec, measured := e0.duration_sec, entries := [e0] }
      rw [hto, hd1]
      refine ⟨rfl, ?_⟩
      simp [hd2]

/-- C6 witness: the two recurring no-date entries `eRecNone1`, `eRecNone2`
with identity `("C 🔁", "P", "S")` form exactly one occurrence holding both. -/
theorem c6_degenerate_date_single_occurrence_witness :
    (reportOf [eRecNone1, eRecNone2]).task_occurrences.length = 1 ∧
    ((reportOf [eRecNone1, eRecNone2]).task_occurrences.map (fun kv => kv.2.entries)).flatten
      = [eRecNone1, eRecNone2] :=
  c6_degenerate_date_single_occurrence ("C 🔁", "P", "S") [eRecNone1, eRecNone2]
    (by decide) (by decide)

/-- C7: the per-project duration totals sum to the grand total duration, the
per-(sub-task, project) duration totals sum to the grand total duration, and
these raw duration sums are computed at entry granularity: rewriting entry
labels arbitrarily — in particular toggling the `🔁` recurring marker, which
lives in the label — changes none of them. -/
theorem c7_entry_granularity_duration_sums (entries : List TimeEntry) :
    sumVals (reportOf entries).project_durations = (reportOf entries).total_duration ∧
    sumVals (subproject_durations entries) = (reportOf entries).total_duration ∧
    ∀ f : TimeEntry → String,
      (reportOf (relabel f entries)).project_durations = (reportOf entries).project_durations ∧
      subproject_durations (relabel f entries) = subproject_durations entries ∧
      (reportOf (relabel f entries)).total_duration = (reportOf entries).total_duration := by
  have hproj : ∀ l : List TimeEntry, (reportOf l).project_durations
      = l.foldl (fun acc e => addAssoc acc e.project_name e.duration_sec) [] := by
    intro l
    simpa using foldl_step1_project l init1
  have htot : ∀ l : List TimeEntry, (reportOf l).total_duration
      = l.foldl (fun a e => a + e.duration_sec) 0 := by
    intro l
    simpa using foldl_step1_total l init1
  refine ⟨?_, ?_, ?_⟩
  · rw [hproj entries, htot entries, foldl_add_duration,
      sumVals_foldl_addAssoc (fun e => e.project_name)]
    simp [sumVals]
  · rw [htot entries, foldl_add_duration]
    unfold subproject_durations
    rw [sumVals_foldl_addAssoc (fun e => (e.task_name, e.project_name))]
    simp [sumVals]
  · intro f
    refine ⟨?_, ?_, ?_⟩
    · rw [hproj entries, hproj (relabel f entries)]
      exact foldl_addAssoc_relabel (fun e => e.project_name) (fun e str => rfl) f entries []
    · unfold subproject_durations
      exact foldl_addAssoc_relabel (fun e => (e.task_name, e.project_name))
        (fun e str => rfl) f entries []
    · rw [htot entries, htot (relabel f entries)]
      exact foldl_duration_relabel f entries 0

/-- C8: the planned-duration parse.  (i) For any label of the shape
`pre ++ "{p" ++ H ++ ":" ++ MM ++ "}" ++ suf` whose prefix contains no `{`,
with `H` a non-empty digit run and `MM` one or two digits, the parse yields
`H*3600 + MM*60` — out-of-range minutes are accepted uncorrected, as the 99
conjunct shows.  (ii) A label containing no `{` at all parses to 0.
(iii)-(v) concrete cases: minutes 99 accepted, three-digit minutes are
malformed and give 0, and of two annotations the first (leftmost) wins.
The function is total (never raises) and `Nat`-valued (never negative). -/
theorem c8_planned_parse_contract :
    (∀ pre hds mds suf : List Char, (∀ c ∈ pre, c ≠ '{') → hds ≠ [] →
      (∀ c ∈ hds, c.isDigit = true) → (∀ c ∈ mds, c.isDigit = true) →
      (mds.length = 1 ∨ mds.length = 2) →
      parse_planned_from_name
          (String.mk (pre ++ '{' :: 'p' :: (hds ++ ':' :: (mds ++ '}' :: suf))))
        = natOfDigits hds * 3600 + natOfDigits mds * 60) ∧
    (∀ s : String, (∀ c ∈ s.data, c ≠ '{') → parse_planned_from_name s = 0) ∧
    parse_planned_from_name "Task {p1:99}" = 9540 ∧
    parse_planned_from_name "Task {p1:234}" = 0 ∧
    parse_planned_from_name "{p1:30} {p2:45}" = 5400 := by
  refine ⟨?_, ?_, by decide, by decide, by decide⟩
  · intro pre hds mds suf hpre hh hhd hmd hlen
    have hmatch := matchPlannedAt_exact hds mds suf hh hhd hmd hlen
    simp only [parse_planned_from_name]
    rw [searchPlanned_append_no_brace pre _ hpre]
    simp only [searchPlanned, hmatch]
  · intro s hs
    simp only [parse_planned_from_name, searchPlanned_no_brace s.data hs]

/-- C8 witness: instantiating the positional clause at `"Task {p1:30}"`
(prefix `"Task "`, hours `1`, minutes `30`) yields 5400 seconds. -/
theorem c8_planned_parse_contract_witness :
    parse_planned_from_name
        (String.mk (['T', 'a', 's', 'k', ' ']
          ++ '{' :: 'p' :: (['1'] ++ ':' :: (['3', '0'] ++ '}' :: []))))
      = natOfDigits ['1'] * 3600 + natOfDigits ['3', '0'] * 60 :=
  c8_planned_parse_contract.1 ['T', 'a', 's', 'k', ' '] ['1'] ['3', '0'] []
    (by decide) (by decide) (by decide) (by decide) (by decide)

/-- C9: a zero denominator in any percentage is reported as "0" (or "0%" in
the totals table) and no division fault can occur anywhere in report
generation: `percent` with total 0, the per-row over/under-percent pattern
with row total 0, and the totals-table percentages with grand total 0 all
return the literal zero strings (every other percentage site is guarded by
these same checks, and every modelled function is total). -/
theorem c9_zero_denominator_safe :
    (∀ v : Int, percent v 0 = "0") ∧
    (∀ p : Int, rowPct p 0 = "0") ∧
    (∀ entries : List TimeEntry, (reportOf entries).total_duration = 0 →
      totalsPcts (reportOf entries) = ("0%", "0%", "0%")) := by
  refine ⟨fun v => by simp [percent], fun p => by simp [rowPct], fun entries h => ?_⟩
  simp [totalsPcts, h]

/-- C9 witness: concrete zero-denominator cases, including the empty batch
whose grand total is 0. -/
theorem c9_zero_denominator_safe_witness :
    percent 5 0 = "0" ∧ rowPct (-3) 0 = "0" ∧
    (reportOf []).total_duration = 0 ∧ totalsPcts (reportOf []) = ("0%", "0%", "0%") :=
  ⟨c9_zero_denominator_safe.1 5, c9_zero_denominator_safe.2.1 (-3), rfl,
   c9_zero_denominator_safe.2.2 [] rfl⟩

/-- C10: when a label carries both the spontaneous (`🎲`) and the scheduled
(`🗓️`) marker, the spontaneous classification wins: the entry's duration is
added to the spontaneous class total and the scheduled total is untouched;
and an occurrence whose first member entry carries both markers has its whole
deviation allocated to the spontaneous class. -/
theorem c10_spontaneous_takes_precedence :
    (∀ (s : Phase1) (e : TimeEntry), hasGlyph "🎲" e.description = true →
      hasGlyph "🗓️" e.description = true →
      (step1 s e).spont_dice = s.spont_dice + e.duration_sec ∧
      (step1 s e).spont_cal = s.spont_cal) ∧
    (∀ (s : DevState) (kv : OccKey × OccData) (first : TimeEntry) (rest : List TimeEntry),
      kv.2.entries = first :: rest →
      hasGlyph "🎲" first.description = true → hasGlyph "🗓️" first.description = true →
      0 < kv.2.planned →
      (devStep s kv).spont_plan_diffs
        = applyDiffPools (devDiff kv) "🎲" s.spont_plan_diffs) := by
  constructor
  · intro s e h1 h2
    exact ⟨by simp [step1, TimeEntry.is_spontaneous, h1],
           by simp [step1, TimeEntry.is_spontaneous, h1]⟩
  · intro s kv first rest hent h1 h2 hp
    rw [devStep_spont s kv hp, hent]
    simp [spontApply, TimeEntry.is_spontaneous, h1]

/-- C10 witness: the entry `eBoth` carries both markers; its duration lands in
the dice total only, and the occurrence `occBoth` (first entry `eBoth`)
allocates its whole deviation to the dice class. -/
theorem c10_spontaneous_takes_precedence_witness :
    (step1 init1 eBoth).spont_dice = init1.spont_dice + eBoth.duration_sec ∧
    (step1 init1 eBoth).spont_cal = init1.spont_cal ∧
    (devStep devInit occBoth).spont_plan_diffs
      = applyDiffPools (devDiff occBoth) "🎲" devInit.spont_plan_diffs :=
  ⟨(c10_spontaneous_takes_precedence.1 init1 eBoth (by decide) (by decide)).1,
   (c10_spontaneous_takes_precedence.1 init1 eBoth (by decide) (by decide)).2,
   c10_spontaneous_takes_precedence.2 devInit occBoth eBoth [] rfl
     (by decide) (by decide) (by decide)⟩

end Clockipy
